import Mathlib

/-!
Verification of the RAG backend core (chunk splitter, vector-store upsert,
answer composer) against its natural-language specification.

The Python source is shallowly embedded:
- strings are `List Char` (Python slicing is by code point, as is
  `List.take`/`List.drop`);
- Python `int` parameters that may be negative are `Int`;
- fallible functions return `Except String _` (the error message mirrors the
  Python exception message);
- external collaborators (the Supabase client, the HF completion endpoint)
  are oracles passed in as data, and the network calls actually issued are
  recorded in a trace list.
-/

namespace RAG

/-! ## Chunk splitter — src/backend/app/rag/splitter.py -/

/-- One element of the list returned by `split_text_to_chunks`:
the Python dict `{"chunk_id": int, "text": str}`. -/
structure Chunk where
  chunk_id : Nat
  text : List Char
deriving DecidableEq, Repr

/-- The `while start < text_len` loop of `split_text_to_chunks`
(splitter.py lines 39-44): emit `text[start : start + chunk_size]`,
then advance `start` by `step`.  The loop body never changes `step`;
the caller established `step = max(chunk_size - overlap, 1) ≥ 1`,
which is the progress guarantee, so we carry `0 < step`. -/
def splitLoop (text : List Char) (chunk_size step : Nat) (hstep : 0 < step)
    (start chunk_id : Nat) : List Chunk :=
  if h : start < text.length then
    { chunk_id := chunk_id, text := (text.drop start).take chunk_size } ::
      splitLoop text chunk_size step hstep (start + step) (chunk_id + 1)
  else
    []
termination_by text.length - start
decreasing_by omega

/-- splitter.py `split_text_to_chunks(text, chunk_size, overlap)`:
empty text short-circuits to `[]`; then `chunk_size <= 0` and `overlap < 0`
raise `ValueError`; otherwise the windowing loop runs with
`step = max(chunk_size - overlap, 1)`. -/
def split_text_to_chunks (text : List Char) (chunk_size overlap : Int) :
    Except String (List Chunk) :=
  if text.isEmpty then Except.ok []
  else if chunk_size ≤ 0 then Except.error "chunk_size must be > 0"
  else if overlap < 0 then Except.error "overlap must be >= 0"
  else
    Except.ok (splitLoop text chunk_size.toNat (max (chunk_size - overlap) 1).toNat
      (by omega) 0 0)

/-- Membership index bound for the loop: chunk `i` is emitted iff its start
position `start + i * step` lies inside the text. -/
theorem splitLoop_lt_length_iff (text : List Char) (cz step : Nat) (hstep : 0 < step) :
    ∀ start cid i, i < (splitLoop text cz step hstep start cid).length ↔
      start + i * step < text.length := by
  have H : ∀ n start cid i, text.length - start ≤ n →
      (i < (splitLoop text cz step hstep start cid).length ↔
        start + i * step < text.length) := by
    intro n
    induction n with
    | zero =>
      intro start cid i hle
      rw [splitLoop]
      have hge : ¬ start < text.length := by omega
      rw [dif_neg hge]
      simp only [List.length_nil]
      constructor
      · omega
      · intro hcon
        exfalso
        have : start ≤ start + i * step := Nat.le_add_right _ _
        omega
    | succ n ih =>
      intro start cid i hle
      rw [splitLoop]
      by_cases h : start < text.length
      · rw [dif_pos h]
        cases i with
        | zero =>
          simp only [List.length_cons, Nat.zero_mul, Nat.add_zero]
          constructor
          · intro _; exact h
          · intro _; exact Nat.succ_pos _
        | succ j =>
          simp only [List.length_cons, Nat.succ_lt_succ_iff]
          rw [ih (start + step) (cid + 1) j (by omega)]
          have harith : start + step + j * step = start + (j + 1) * step := by
            rw [Nat.succ_mul]; omega
          rw [harith]
      · rw [dif_neg h]
        simp only [List.length_nil]
        constructor
        · omega
        · intro hcon
          exfalso
          have : start ≤ start + i * step := Nat.le_add_right _ _
          omega
  intro start cid i
  exact H (text.length - start) start cid i (Nat.le_refl _)

/-- Closed form of each emitted chunk: the `i`-th element of the loop output
is `{chunk_id := cid + i, text := text[start + i*step : start + i*step + cz]}`,
present exactly when that start position is inside the text. -/
theorem splitLoop_get? (text : List Char) (cz step : Nat) (hstep : 0 < step) :
    ∀ start cid i,
      (splitLoop text cz step hstep start cid).get? i =
        if start + i * step < text.length then
          some { chunk_id := cid + i, text := (text.drop (start + i * step)).take cz }
        else none := by
  have H : ∀ n start cid i, text.length - start ≤ n →
      (splitLoop text cz step hstep start cid).get? i =
        if start + i * step < text.length then
          some { chunk_id := cid + i, text := (text.drop (start + i * step)).take cz }
        else none := by
    intro n
    induction n with
    | zero =>
      intro start cid i hle
      rw [splitLoop, dif_neg (by omega : ¬ start < text.length)]
      rw [if_neg]
      · simp
      · have : start ≤ start + i * step := Nat.le_add_right _ _
        omega
    | succ n ih =>
      intro start cid i hle
      rw [splitLoop]
      by_cases hlt : start < text.length
      · rw [dif_pos hlt]
        cases i with
        | zero =>
          simp only [List.get?, Nat.zero_mul, Nat.add_zero, if_pos hlt]
        | succ j =>
          have hrec := ih (start + step) (cid + 1) j (by omega)
          have h1 : cid + 1 + j = cid + (j + 1) := by omega
          have h2 : start + step + j * step = start + (j + 1) * step := by
            rw [Nat.succ_mul]; omega
          simp only [List.get?]
          rw [hrec, h1, h2]
      · rw [dif_neg hlt]
        rw [if_neg]
        · simp
        · have : start ≤ start + i * step := Nat.le_add_right _ _
          omega
  intro start cid i
  exact H (text.length - start) start cid i (Nat.le_refl _)

/-- `List.get` form of `splitLoop_get?`. -/
theorem splitLoop_get (text : List Char) (cz step : Nat) (hstep : 0 < step)
    (start cid i : Nat) (h : i < (splitLoop text cz step hstep start cid).length) :
    (splitLoop text cz step hstep start cid).get ⟨i, h⟩ =
      { chunk_id := cid + i, text := (text.drop (start + i * step)).take cz } := by
  have hlt : start + i * step < text.length :=
    (splitLoop_lt_length_iff text cz step hstep start cid i).mp h
  have h1 := splitLoop_get? text cz step hstep start cid i
  rw [if_pos hlt] at h1
  have h2 : (splitLoop text cz step hstep start cid).get? i =
      some ((splitLoop text cz step hstep start cid).get ⟨i, h⟩) :=
    List.get?_eq_get h
  rw [h2] at h1
  exact Option.some.inj h1

/-- On non-empty text with validated parameters, `split_text_to_chunks`
reduces to the windowing loop started at position 0. -/
theorem split_text_to_chunks_eq (text : List Char) (chunk_size overlap : Int)
    (hne : text ≠ []) (hcs : 0 < chunk_size) (hov : 0 ≤ overlap) :
    split_text_to_chunks text chunk_size overlap =
      Except.ok (splitLoop text chunk_size.toNat (max (chunk_size - overlap) 1).toNat
        (by omega) 0 0) := by
  have hie : ¬ (text.isEmpty = true) := by
    simp only [List.isEmpty_eq_true]
    exact hne
  rw [split_text_to_chunks, if_neg hie, if_neg (by omega : ¬ chunk_size ≤ 0),
    if_neg (by omega : ¬ overlap < 0)]

/-- Dropping the first `ov` characters of every chunk and concatenating:
the loop output from `start` covers exactly `text[start + ov :]`
when the window size is `step + ov`. -/
theorem splitLoop_flatten_drop (text : List Char) (step ov : Nat) (hstep : 0 < step) :
    ∀ start cid,
      (((splitLoop text (step + ov) step hstep start cid).map
        (fun c => c.text.drop ov)).flatten) = text.drop (start + ov) := by
  have H : ∀ n start cid, text.length - start ≤ n →
      (((splitLoop text (step + ov) step hstep start cid).map
        (fun c => c.text.drop ov)).flatten) = text.drop (start + ov) := by
    intro n
    induction n with
    | zero =>
      intro start cid hle
      rw [splitLoop, dif_neg (by omega : ¬ start < text.length)]
      simp only [List.map_nil, List.flatten_nil]
      exact (List.drop_eq_nil_of_le (by omega)).symm
    | succ n ih =>
      intro start cid hle
      rw [splitLoop]
      by_cases hlt : start < text.length
      · rw [dif_pos hlt]
        simp only [List.map_cons, List.flatten_cons]
        rw [ih (start + step) (cid + 1) (by omega)]
        rw [List.drop_take]
        have e1 : step + ov - ov = step := by omega
        rw [e1, List.drop_drop]
        have e3 : start + step + ov = start + ov + step := by omega
        rw [e3]
        exact List.drop_take_append_drop text (start + ov) step
      · rw [dif_neg hlt]
        simp only [List.map_nil, List.flatten_nil]
        exact (List.drop_eq_nil_of_le (by omega)).symm
  intro start cid
  exact H (text.length - start) start cid (Nat.le_refl _)

/-- The reconstruction of C3, stated from the spec: keep the first chunk
whole and strip the first `ov` characters from every later chunk, then
concatenate. -/
def reassembleChunks (ov : Nat) : List Chunk → List Char
  | [] => []
  | c :: cs => c.text ++ (cs.map (fun d => d.text.drop ov)).flatten

/-- Sample text "abcdef" used by concrete witnesses. -/
def sampleText6 : List Char := 'a' :: 'b' :: 'c' :: 'd' :: 'e' :: 'f' :: []

/-- Sample text "abcde" used by concrete witnesses and counterexamples. -/
def sampleText5 : List Char := 'a' :: 'b' :: 'c' :: 'd' :: 'e' :: []

/-- C2: for chunk_size > 0 and overlap ≥ 0, `split_text_to_chunks` succeeds and
returns exactly the window sequence: chunk `i` exists iff `i * step < len(text)`
with `step = max(chunk_size - overlap, 1)`, chunk `i` is
`{chunk_id := i, text := text[i*step : i*step + chunk_size]}` (so chunk_ids are
0..N-1 in emission order), and empty text yields the empty sequence. -/
theorem split_text_to_chunks_windows (text : List Char) (chunk_size overlap : Int)
    (hcs : 0 < chunk_size) (hov : 0 ≤ overlap) :
    ∃ cs, split_text_to_chunks text chunk_size overlap = Except.ok cs ∧
      (∀ i, i < cs.length ↔ i * (max (chunk_size - overlap) 1).toNat < text.length) ∧
      (∀ i (h : i < cs.length), cs.get ⟨i, h⟩ =
        { chunk_id := i,
          text := (text.drop (i * (max (chunk_size - overlap) 1).toNat)).take
            chunk_size.toNat }) ∧
      (text = [] → cs = []) := by
  by_cases hne : text = []
  · refine ⟨[], ?_, ?_, ?_, fun _ => rfl⟩
    · subst hne; rfl
    · intro i
      subst hne
      simp
    · intro i h
      exact absurd h (by simp)
  · rw [split_text_to_chunks_eq text chunk_size overlap hne hcs hov]
    refine ⟨_, rfl, ?_, ?_, fun he => absurd he hne⟩
    · intro i
      have := splitLoop_lt_length_iff text chunk_size.toNat
        (max (chunk_size - overlap) 1).toNat (by omega) 0 0 i
      simpa using this
    · intro i h
      have := splitLoop_get text chunk_size.toNat
        (max (chunk_size - overlap) 1).toNat (by omega) 0 0 i h
      simpa using this

/-- Witness for C2 at text "abcdef", chunk_size 4, overlap 2. -/
theorem split_text_to_chunks_windows_witness :
    ((0 : Int) < 4 ∧ (0 : Int) ≤ 2) ∧
    (∃ cs, split_text_to_chunks sampleText6 4 2 = Except.ok cs ∧
      (∀ i, i < cs.length ↔ i * (max ((4 : Int) - 2) 1).toNat < sampleText6.length) ∧
      (∀ i (h : i < cs.length), cs.get ⟨i, h⟩ =
        { chunk_id := i,
          text := (sampleText6.drop (i * (max ((4 : Int) - 2) 1).toNat)).take
            (4 : Int).toNat }) ∧
      (sampleText6 = [] → cs = [])) :=
  ⟨⟨by decide, by decide⟩,
    split_text_to_chunks_windows sampleText6 4 2 (by decide) (by decide)⟩

/-- C3: for non-empty text and 0 ≤ overlap < chunk_size, concatenating the
chunks with the leading `overlap` characters removed from every chunk after
the first reconstructs the original text exactly. -/
theorem split_text_to_chunks_reassemble (text : List Char) (chunk_size overlap : Int)
    (hne : text ≠ []) (hov : 0 ≤ overlap) (hlt : overlap < chunk_size) :
    ∃ cs, split_text_to_chunks text chunk_size overlap = Except.ok cs ∧
      reassembleChunks overlap.toNat cs = text := by
  have hcs : 0 < chunk_size := by omega
  rw [split_text_to_chunks_eq text chunk_size overlap hne hcs hov]
  refine ⟨_, rfl, ?_⟩
  have hmax : max (chunk_size - overlap) 1 = chunk_size - overlap :=
    max_eq_left (by omega)
  have hcz : chunk_size.toNat = (max (chunk_size - overlap) 1).toNat + overlap.toNat := by
    rw [hmax]; omega
  have hstep : 0 < (max (chunk_size - overlap) 1).toNat := by
    rw [hmax]; omega
  have hlen : 0 < text.length := List.length_pos.mpr hne
  rw [splitLoop, dif_pos hlen]
  rw [reassembleChunks]
  have hflat := splitLoop_flatten_drop text (max (chunk_size - overlap) 1).toNat
    overlap.toNat hstep (0 + (max (chunk_size - overlap) 1).toNat) 1
  rw [hcz] at *
  rw [hflat]
  simp only [List.drop_zero, Nat.zero_add]
  exact List.take_append_drop _ text

/-- Witness for C3 at text "abcdef", chunk_size 4, overlap 2
(chunks "abcd", "cdef", "ef" reassemble to "abcdef"). -/
theorem split_text_to_chunks_reassemble_witness :
    (sampleText6 ≠ [] ∧ (0 : Int) ≤ 2 ∧ (2 : Int) < 4) ∧
    (∃ cs, split_text_to_chunks sampleText6 4 2 = Except.ok cs ∧
      reassembleChunks (2 : Int).toNat cs = sampleText6) :=
  ⟨⟨by decide, by decide, by decide⟩,
    split_text_to_chunks_reassemble sampleText6 4 2 (by decide) (by decide) (by decide)⟩

/-- Counterexample for C7 as stated: with empty text and chunk_size = 0
(an invalid parameter), `split_text_to_chunks` returns the empty chunk list
instead of an invalid-argument error — the empty-text check runs first. -/
theorem split_text_to_chunks_empty_invalid_cex :
    split_text_to_chunks [] 0 0 = Except.ok [] := rfl

/-- C7 (amended): for every NON-EMPTY text, `split_text_to_chunks` fails with
an invalid-argument error whenever chunk_size ≤ 0 or overlap < 0. -/
theorem split_text_to_chunks_invalid_args (text : List Char) (chunk_size overlap : Int)
    (hne : text ≠ []) (hbad : chunk_size ≤ 0 ∨ overlap < 0) :
    ∃ msg, split_text_to_chunks text chunk_size overlap = Except.error msg := by
  have hie : ¬ (text.isEmpty = true) := by
    simp only [List.isEmpty_eq_true]
    exact hne
  by_cases hcz : chunk_size ≤ 0
  · exact ⟨"chunk_size must be > 0", by rw [split_text_to_chunks, if_neg hie, if_pos hcz]⟩
  · have hovneg : overlap < 0 := by
      rcases hbad with h | h
      · exact absurd h hcz
      · exact h
    exact ⟨"overlap must be >= 0",
      by rw [split_text_to_chunks, if_neg hie, if_neg hcz, if_pos hovneg]⟩

/-- Witness for C7 (amended) at text "a", chunk_size 0, overlap 0. -/
theorem split_text_to_chunks_invalid_args_witness :
    (('a' :: [] : List Char) ≠ [] ∧ ((0 : Int) ≤ 0 ∨ (0 : Int) < 0)) ∧
    (∃ msg, split_text_to_chunks ('a' :: []) 0 0 = Except.error msg) :=
  ⟨⟨by decide, Or.inl (by decide)⟩,
    split_text_to_chunks_invalid_args ('a' :: []) 0 0 (by decide) (Or.inl (by decide))⟩

/-- Counterexample for C8 as stated: splitting "abcde" with chunk_size 4 and
overlap 2 emits three chunks, and the middle chunk (index 1, not the final
one) has length 3 < chunk_size. -/
theorem split_text_to_chunks_nonfinal_short_cex :
    ∃ cs, split_text_to_chunks sampleText5 4 2 = Except.ok cs ∧
      cs.length = 3 ∧ ∃ h : 1 < cs.length, (cs.get ⟨1, h⟩).text.length = 3 := by
  have hne : sampleText5 ≠ [] := by decide
  rw [split_text_to_chunks_eq sampleText5 4 2 hne (by decide) (by decide)]
  have hcz : (4 : Int).toNat = 4 := rfl
  have hst : (max ((4 : Int) - 2) 1).toNat = 2 := by decide
  refine ⟨_, rfl, ?_, ?_⟩
  · have hlen2 := splitLoop_lt_length_iff sampleText5 (4 : Int).toNat
      (max ((4 : Int) - 2) 1).toNat (by omega) 0 0 2
    have hlen3 := splitLoop_lt_length_iff sampleText5 (4 : Int).toNat
      (max ((4 : Int) - 2) 1).toNat (by omega) 0 0 3
    have h2 := hlen2.mpr (by decide)
    have h3 : ¬ 3 < (splitLoop sampleText5 (4 : Int).toNat
        (max ((4 : Int) - 2) 1).toNat (by omega) 0 0).length :=
      fun hc => absurd (hlen3.mp hc) (by decide)
    omega
  · have h1 : 1 < (splitLoop sampleText5 (4 : Int).toNat
        (max ((4 : Int) - 2) 1).toNat (by omega) 0 0).length := by
      rw [splitLoop_lt_length_iff, hst]; decide
    refine ⟨h1, ?_⟩
    rw [splitLoop_get sampleText5 (4 : Int).toNat
      (max ((4 : Int) - 2) 1).toNat (by omega) 0 0 1 h1]
    rw [hst, hcz]
    decide

/-- C8 (amended): every chunk has length at most chunk_size; precisely, chunk
`i` has length `min chunk_size (len(text) − i·step)`, so a chunk whose window
lies entirely inside the text has length exactly chunk_size, and any chunk
whose window extends past the end of the text — which can include non-final
chunks when overlap > 0 — is shorter; no padding is added. -/
theorem split_text_to_chunks_chunk_lengths (text : List Char) (chunk_size overlap : Int)
    (hcs : 0 < chunk_size) (hov : 0 ≤ overlap) :
    ∃ cs, split_text_to_chunks text chunk_size overlap = Except.ok cs ∧
      ∀ i (h : i < cs.length),
        (cs.get ⟨i, h⟩).text.length =
          min chunk_size.toNat
            (text.length - i * (max (chunk_size - overlap) 1).toNat) ∧
        (cs.get ⟨i, h⟩).text.length ≤ chunk_size.toNat ∧
        (i * (max (chunk_size - overlap) 1).toNat + chunk_size.toNat ≤ text.length →
          (cs.get ⟨i, h⟩).text.length = chunk_size.toNat) := by
  by_cases hne : text = []
  · refine ⟨[], ?_, ?_⟩
    · subst hne; rfl
    · intro i h
      exact absurd h (by simp)
  · rw [split_text_to_chunks_eq text chunk_size overlap hne hcs hov]
    refine ⟨_, rfl, ?_⟩
    intro i h
    rw [splitLoop_get text chunk_size.toNat (max (chunk_size - overlap) 1).toNat
      (by omega) 0 0 i h]
    simp only [List.length_take, List.length_drop, Nat.zero_add]
    refine ⟨trivial, ?_, ?_⟩
    · omega
    · intro hfit
      omega

/-- Witness for C8 (amended) at text "abcde", chunk_size 4, overlap 2. -/
theorem split_text_to_chunks_chunk_lengths_witness :
    ((0 : Int) < 4 ∧ (0 : Int) ≤ 2) ∧
    (∃ cs, split_text_to_chunks sampleText5 4 2 = Except.ok cs ∧
      ∀ i (h : i < cs.length),
        (cs.get ⟨i, h⟩).text.length =
          min (4 : Int).toNat
            (sampleText5.length - i * (max ((4 : Int) - 2) 1).toNat) ∧
        (cs.get ⟨i, h⟩).text.length ≤ (4 : Int).toNat ∧
        (i * (max ((4 : Int) - 2) 1).toNat + (4 : Int).toNat ≤ sampleText5.length →
          (cs.get ⟨i, h⟩).text.length = (4 : Int).toNat)) :=
  ⟨⟨by decide, by decide⟩,
    split_text_to_chunks_chunk_lengths sampleText5 4 2 (by decide) (by decide)⟩

/-- C9: in the degenerate case overlap ≥ chunk_size > 0 the step collapses to
1, the splitter still terminates (it is a total function) and the number of
emitted chunks is bounded by the length of the text. -/
theorem split_text_to_chunks_degenerate_overlap (text : List Char) (chunk_size overlap : Int)
    (hcs : 0 < chunk_size) (hov : chunk_size ≤ overlap) :
    max (chunk_size - overlap) 1 = 1 ∧
    ∃ cs, split_text_to_chunks text chunk_size overlap = Except.ok cs ∧
      cs.length ≤ text.length := by
  have hmax : max (chunk_size - overlap) 1 = 1 := max_eq_right (by omega)
  refine ⟨hmax, ?_⟩
  by_cases hne : text = []
  · refine ⟨[], ?_, ?_⟩
    · subst hne; rfl
    · simp
  · rw [split_text_to_chunks_eq text chunk_size overlap hne hcs (by omega)]
    refine ⟨_, rfl, ?_⟩
    by_contra hgt
    have hlt : text.length < (splitLoop text chunk_size.toNat
        (max (chunk_size - overlap) 1).toNat (by omega) 0 0).length := by omega
    have := (splitLoop_lt_length_iff text chunk_size.toNat
      (max (chunk_size - overlap) 1).toNat (by omega) 0 0 text.length).mp hlt
    rw [hmax] at this
    simp at this

/-- Witness for C9 at text "abc", chunk_size 2, overlap 5. -/
theorem split_text_to_chunks_degenerate_overlap_witness :
    ((0 : Int) < 2 ∧ (2 : Int) ≤ 5) ∧
    (max ((2 : Int) - 5) 1 = 1 ∧
      ∃ cs, split_text_to_chunks ('a' :: 'b' :: 'c' :: []) 2 5 = Except.ok cs ∧
        cs.length ≤ ('a' :: 'b' :: 'c' :: [] : List Char).length) :=
  ⟨⟨by decide, by decide⟩,
    split_text_to_chunks_degenerate_overlap ('a' :: 'b' :: 'c' :: []) 2 5
      (by decide) (by decide)⟩

/-- C10: for every chunk_size and overlap, even invalid ones, splitting the
empty string returns the empty sequence without raising — the empty-text
check takes precedence over parameter validation. -/
theorem split_text_to_chunks_empty_text (chunk_size overlap : Int) :
    split_text_to_chunks [] chunk_size overlap = Except.ok [] := rfl

/-! ## Vector store adapter — src/backend/app/rag/vectorstore.py

The Supabase client is an external collaborator.  It is modelled as an
oracle (`StoreClient`) whose responses are already normalized to the two
facts `upsert_embeddings` extracts from them: `_resp_has_error(resp)`
(an optional error string) and the length of `_resp_get_data_list(resp)`
when that is a list.  Embedding values are modelled as `Rat` (the
`float(x)` coercion on line 158 is the identity in the model).  Every
network call actually issued is recorded in a `StoreOp` trace. -/

/-- Embedding vector (float values abstracted as rationals). -/
abbrev Vec := List Rat

/-- Per-chunk metadata mapping. -/
abbrev Meta := List (String × String)

/-- One row of the `embeddings` table (vectorstore.py lines 159-167). -/
structure Row where
  document_id : String
  chunk_id : Nat
  chunk_text : List Char
  embedding : Vec
  metadata : Meta
deriving DecidableEq, Repr

/-- A store response, normalized to what the adapter reads off it:
`err` is the result of `_resp_has_error(resp)` and `data` is
`len(_resp_get_data_list(resp))` when that result is a list. -/
structure Resp where
  err : Option String
  data : Option Nat
deriving DecidableEq, Repr

/-- `_resp_has_error` on the normalized response model. -/
def resp_has_error (resp : Resp) : Option String := resp.err

/-- A network call issued to the store. -/
inductive StoreOp where
  | delete (document_id : String)
  | insert (batch : List Row)
deriving DecidableEq, Repr

/-- The store oracle: the response each delete / batch-insert call returns. -/
structure StoreClient where
  deleteResp : String → Resp
  insertResp : List Row → Resp

/-- `_chunks_iterable(iterable, size)` (vectorstore.py lines 118-120):
successive slices `iterable[i : i + size]` for `i = 0, size, 2·size, …`.
`BATCH_SIZE` is a positive configuration value, carried as `0 < size`. -/
def chunks_iterable (l : List Row) (size : Nat) (hsize : 0 < size) :
    List (List Row) :=
  if h : l = [] then []
  else l.take size :: chunks_iterable (l.drop size) size hsize
termination_by l.length
decreasing_by
  have hl : 0 < l.length := List.length_pos.mpr h
  simp only [List.length_drop]
  omega

/-- Row construction (vectorstore.py lines 156-167): enumerate
`zip(chunks, embeddings, metadata)` into table rows.  `meta or {}` and the
`float(x)` re-coercion are identities in the model. -/
def buildRows (document_id : String) :
    List ((List Char × Vec) × Meta) → Nat → List Row
  | [], _ => []
  | ((chunk_text, emb), meta) :: rest, i =>
    { document_id := document_id, chunk_id := i, chunk_text := chunk_text,
      embedding := emb, metadata := meta } :: buildRows document_id rest (i + 1)

/-- The batch-insert loop (vectorstore.py lines 170-184): issue one insert
per batch, abort on the first reported error, otherwise accumulate the
acknowledged row count (falling back to the batch length when the response
shape does not report a list).  Returns the result and the issued calls. -/
def insertBatches (store : StoreClient) :
    List (List Row) → Nat → Except String Nat × List StoreOp
  | [], inserted => (Except.ok inserted, [])
  | batch :: rest, inserted =>
    match resp_has_error (store.insertResp batch) with
    | some err =>
      (Except.error ("Failed to insert batch into Supabase: " ++ err),
        [StoreOp.insert batch])
    | none =>
      let cnt :=
        match (store.insertResp batch).data with
        | some k => k
        | none => batch.length
      let next := insertBatches store rest (inserted + cnt)
      (next.1, StoreOp.insert batch :: next.2)

/-- The summary dict returned by a successful upsert. -/
structure UpsertResult where
  document_id : String
  inserted : Nat
  requested : Nat
deriving DecidableEq, Repr

/-- vectorstore.py `upsert_embeddings(document_id, chunks, embeddings,
metadata, delete_existing)` (lines 126-186): validate lengths, optionally
delete the document's existing rows (aborting on a reported delete error),
then batch-insert.  The second component lists the store calls issued. -/
def upsert_embeddings (store : StoreClient) (batch_size : Nat) (hbs : 0 < batch_size)
    (document_id : String) (chunks : List (List Char)) (embeddings : List Vec)
    (metadata : Option (List Meta)) (delete_existing : Bool) :
    Except String UpsertResult × List StoreOp :=
  if chunks.length ≠ embeddings.length then
    (Except.error "chunks and embeddings must have the same length", [])
  else
    let md := metadata.getD (List.replicate chunks.length ([] : Meta))
    if md.length ≠ chunks.length then
      (Except.error "metadata length must match chunks length", [])
    else
      let rows := buildRows document_id ((chunks.zip embeddings).zip md) 0
      if delete_existing then
        match resp_has_error (store.deleteResp document_id) with
        | some err =>
          (Except.error ("Failed to delete existing embeddings for document "
              ++ document_id ++ ": " ++ err),
            [StoreOp.delete document_id])
        | none =>
          let res := insertBatches store (chunks_iterable rows batch_size hbs) 0
          (res.1.map (fun ins =>
              { document_id := document_id, inserted := ins,
                requested := chunks.length }),
            StoreOp.delete document_id :: res.2)
      else
        let res := insertBatches store (chunks_iterable rows batch_size hbs) 0
        (res.1.map (fun ins =>
            { document_id := document_id, inserted := ins,
              requested := chunks.length }),
          res.2)

/-- C4: with `delete_existing = true` (and shape-valid arguments, so the
call gets past validation), the first store call issued is the delete for
the given document_id — hence it precedes every insert — and if the delete
response reports an error the call fails with a propagated error and the
delete is the only call ever issued (no insert follows). -/
theorem upsert_embeddings_delete_first (store : StoreClient) (batch_size : Nat)
    (hbs : 0 < batch_size) (document_id : String) (chunks : List (List Char))
    (embeddings : List Vec) (metadata : Option (List Meta))
    (hlen : chunks.length = embeddings.length)
    (hmd : (metadata.getD (List.replicate chunks.length ([] : Meta))).length
      = chunks.length) :
    (upsert_embeddings store batch_size hbs document_id chunks embeddings
        metadata true).2.head? = some (StoreOp.delete document_id) ∧
    (∀ e, resp_has_error (store.deleteResp document_id) = some e →
      (upsert_embeddings store batch_size hbs document_id chunks embeddings
          metadata true).2 = [StoreOp.delete document_id] ∧
      ∃ msg, (upsert_embeddings store batch_size hbs document_id chunks embeddings
          metadata true).1 = Except.error msg) := by
  rw [upsert_embeddings]
  simp only [if_neg (by omega : ¬ chunks.length ≠ embeddings.length),
    if_neg (by omega :
      ¬ (metadata.getD (List.replicate chunks.length ([] : Meta))).length
        ≠ chunks.length)]
  cases herr : resp_has_error (store.deleteResp document_id) with
  | none =>
    simp only [herr]
    constructor
    · rfl
    · intro e he
      exact absurd he (by simp [herr])
  | some e0 =>
    simp only [herr]
    exact ⟨rfl, fun e he => ⟨rfl, ⟨_, rfl⟩⟩⟩

/-- A store whose delete call always fails, for the C4 witness. -/
def failingDeleteStore : StoreClient :=
  { deleteResp := fun _ => { err := some "boom", data := none },
    insertResp := fun _ => { err := none, data := none } }

/-- Witness for C4: one chunk, failing delete — the only store call is the
delete and the upsert propagates the error. -/
theorem upsert_embeddings_delete_first_witness :
    (([('a' : Char) :: []].length = [[(1 : Rat)]].length) ∧
      ((none : Option (List Meta)).getD
        (List.replicate [('a' : Char) :: []].length ([] : Meta))).length
        = [('a' : Char) :: []].length) ∧
    ((upsert_embeddings failingDeleteStore 500 (by decide) "doc1"
        [('a' : Char) :: []] [[(1 : Rat)]] none true).2.head?
      = some (StoreOp.delete "doc1") ∧
    (∀ e, resp_has_error (failingDeleteStore.deleteResp "doc1") = some e →
      (upsert_embeddings failingDeleteStore 500 (by decide) "doc1"
          [('a' : Char) :: []] [[(1 : Rat)]] none true).2
        = [StoreOp.delete "doc1"] ∧
      ∃ msg, (upsert_embeddings failingDeleteStore 500 (by decide) "doc1"
          [('a' : Char) :: []] [[(1 : Rat)]] none true).1 = Except.error msg)) :=
  ⟨⟨rfl, rfl⟩,
    upsert_embeddings_delete_first failingDeleteStore 500 (by decide) "doc1"
      [('a' : Char) :: []] [[(1 : Rat)]] none rfl rfl⟩

/-- C5: whenever the three input sequences do not all have the same length,
`upsert_embeddings` fails with an invalid-argument error and issues no store
call at all (no delete and no insert), for either value of delete_existing. -/
theorem upsert_embeddings_shape_mismatch (store : StoreClient) (batch_size : Nat)
    (hbs : 0 < batch_size) (document_id : String) (chunks : List (List Char))
    (embeddings : List Vec) (ml : List Meta) (delete_existing : Bool)
    (hmm : ¬ (chunks.length = embeddings.length ∧ ml.length = chunks.length)) :
    (∃ msg, (upsert_embeddings store batch_size hbs document_id chunks embeddings
      (some ml) delete_existing).1 = Except.error msg) ∧
    (upsert_embeddings store batch_size hbs document_id chunks embeddings
      (some ml) delete_existing).2 = [] := by
  rw [upsert_embeddings]
  by_cases hce : chunks.length = embeddings.length
  · have hml : ml.length ≠ chunks.length := fun h => hmm ⟨hce, h⟩
    simp only [if_neg (by omega : ¬ chunks.length ≠ embeddings.length),
      Option.getD_some, if_pos hml]
    exact ⟨⟨_, rfl⟩, trivial⟩
  · simp only [if_pos hce]
    exact ⟨⟨_, rfl⟩, trivial⟩

/-- Witness for C5: one chunk but zero embeddings — the call fails and the
trace of issued store calls is empty. -/
theorem upsert_embeddings_shape_mismatch_witness :
    (¬ ([('a' : Char) :: []].length = ([] : List Vec).length ∧
        ([] : List Meta).length = [('a' : Char) :: []].length)) ∧
    ((∃ msg, (upsert_embeddings failingDeleteStore 500 (by decide) "doc1"
        [('a' : Char) :: []] [] (some []) true).1 = Except.error msg) ∧
      (upsert_embeddings failingDeleteStore 500 (by decide) "doc1"
        [('a' : Char) :: []] [] (some []) true).2 = []) :=
  ⟨by decide,
    upsert_embeddings_shape_mismatch failingDeleteStore 500 (by decide) "doc1"
      [('a' : Char) :: []] [] [] true (by decide)⟩

/-! ## Answer composer — src/backend/app/rag/pipeline.py, `answer_query`

`answer_query` embeds the question and retrieves hits through external
collaborators; the composer stage (pipeline.py lines 88-177) is embedded
here as a function of the retrieved hits.  The Hugging Face completion
call `_call_hf_sync` is an external HTTP boundary; its outcome is the
`HFOutcome` oracle (success with generated text, an `HTTPError` carrying an
optional status code, or any other exception).  Python's
`UnboundLocalError` (reading the local `answer` on a path that never
assigned it) is an explicit error value. -/

/-- A retrieval hit: the dict returned by the `match_vectors` RPC, read with
`h.get(...)` so every key is optional. -/
structure Hit where
  id : Option Nat
  document_id : Option String
  chunk_id : Option Nat
  chunk_text : Option (List Char)
  score : Option Rat
  text : Option (List Char)
deriving DecidableEq, Repr

/-- Python `a or b` on an optional string: `b` when `a` is `None` or empty. -/
def pyOrStr (a : Option (List Char)) (b : List Char) : List Char :=
  match a with
  | none => b
  | some s => if s = [] then b else s

/-- pipeline.py line 94: `h.get("chunk_text") or h.get("text") or ""`. -/
def hitText (h : Hit) : List Char :=
  pyOrStr h.chunk_text (pyOrStr h.text [])

/-- One element of the `sources` list (pipeline.py lines 96-102). -/
structure SourceRef where
  id : Option Nat
  document_id : Option String
  chunk_id : Option Nat
  score : Option Rat
  text : List Char
deriving DecidableEq, Repr

/-- pipeline.py lines 96-102: map a hit to its source entry, with the text
preview truncated to 500 characters. -/
def mkSource (h : Hit) : SourceRef :=
  { id := h.id, document_id := h.document_id, chunk_id := h.chunk_id,
    score := h.score, text := (hitText h).take 500 }

/-- Python `str.strip()`: remove leading and trailing whitespace. -/
def stripChars (s : List Char) : List Char :=
  ((s.dropWhile Char.isWhitespace).reverse.dropWhile Char.isWhitespace).reverse

/-- The separator `"\n\n---\n\n"` of pipeline.py line 104. -/
def contextSep : List Char := "\n\n---\n\n".data

/-- Outcome of the `_call_hf_sync` completion call, as observed by the
`try`/`except` in pipeline.py lines 145-173: generated text, an `HTTPError`
whose response carries an optional status code and body, or any other
exception with its message. -/
inductive HFOutcome where
  | success (generated : List Char)
  | httpError (status : Option Nat) (body : List Char)
  | otherError (msg : List Char)
deriving DecidableEq, Repr

/-- The error raised by reading an unassigned Python local variable. -/
inductive PyError where
  | unboundLocal (name : String)
deriving DecidableEq, Repr

/-- `str(status)` where `status` may be `None`. -/
def statusText : Option Nat → List Char
  | none => "None".data
  | some n => (Nat.repr n).data

/-- pipeline.py lines 160-164: the 410 fallback — an extractive summary of
the first three retrieved chunks, each stripped, newline-flattened and
truncated to 200 characters, joined by " / ". -/
def goneFallback (contexts : List (List Char)) : List Char :=
  "(LLM unavailable for the requested model; returned context summary instead.)\n\n".data ++
    List.intercalate " / ".data
      ((contexts.take 3).map (fun c =>
        ((stripChars c).map (fun ch => if ch = '\n' then ' ' else ch)).take 200))

/-- pipeline.py line 167: the non-410 HTTP-error fallback — a truncated raw
context dump. -/
def httpFallback (status : Option Nat) (combined_context : List Char) : List Char :=
  "(LLM HTTP error ".data ++ statusText status ++
    " — falling back to context summary.)\n\n".data ++ combined_context.take 1200

/-- pipeline.py line 173: the generic-exception fallback — a truncated raw
context dump. -/
def failFallback (msg combined_context : List Char) : List Char :=
  "(LLM call failed: ".data ++ msg ++ ")\n\nContext:\n".data ++
    combined_context.take 1200

/-- pipeline.py line 175 (the unreachable inner `else`). -/
def noContextMsg : List Char := "No relevant context found for the query.".data

/-- The composer stage of pipeline.py `answer_query` (lines 88-177), given
the retrieved hits and the completion-call outcome.  The local `answer` is
`Option`-valued: the outer `if combined_context:` (line 107) guards the
whole completion block, the duplicated inner `if combined_context:`
(line 138) selects between the call and the no-context message, and the
final `return answer, sources` (line 177) raises `UnboundLocalError` when
no branch assigned `answer`. -/
def answer_query (hf : HFOutcome) (question : List Char) (hits : List Hit) :
    Except PyError (List Char × List SourceRef) :=
  let contexts := hits.map hitText
  let sources := hits.map mkSource
  let combined_context := stripChars (List.intercalate contextSep contexts)
  let answerVar : Option (List Char) :=
    if combined_context ≠ [] then
      some
        (if combined_context ≠ [] then
          match hf with
          | HFOutcome.success generated => generated
          | HFOutcome.httpError status _body =>
            if status = some 410 then goneFallback contexts
            else httpFallback status combined_context
          | HFOutcome.otherError msg => failFallback msg combined_context
        else noContextMsg)
    else none
  match answerVar with
  | some answer => Except.ok (answer, sources)
  | none => Except.error (PyError.unboundLocal "answer")

/-- C1 (code bug): with zero hits the combined context is empty, so the
outer `if combined_context:` block is skipped; the intended fixed
no-context message sits in an `else` attached to the duplicated inner
`if combined_context:` and is unreachable, so `answer` is never assigned
and `return answer, sources` raises `UnboundLocalError` instead of
returning the fixed message with an empty sources list. -/
theorem answer_query_empty_hits_unbound (hf : HFOutcome) (question : List Char) :
    answer_query hf question [] = Except.error (PyError.unboundLocal "answer") := rfl

/-- C6: when hits exist and the combined context is non-empty (so the
completion call is attempted), a 410 "gone" failure yields the extractive
summary built from the first three retrieved chunks, any other completion
failure yields a truncated raw-context dump, and in every fallback case the
returned sources list is the normally computed one for the hits. -/
theorem answer_query_completion_fallbacks (question : List Char) (hits : List Hit)
    (hne : hits ≠ [])
    (hctx : stripChars (List.intercalate contextSep (hits.map hitText)) ≠ []) :
    (∀ body, answer_query (HFOutcome.httpError (some 410) body) question hits =
      Except.ok (goneFallback (hits.map hitText), hits.map mkSource)) ∧
    (∀ status body, status ≠ some 410 →
      answer_query (HFOutcome.httpError status body) question hits =
      Except.ok
        (httpFallback status
          (stripChars (List.intercalate contextSep (hits.map hitText))),
         hits.map mkSource)) ∧
    (∀ msg, answer_query (HFOutcome.otherError msg) question hits =
      Except.ok
        (failFallback msg
          (stripChars (List.intercalate contextSep (hits.map hitText))),
         hits.map mkSource)) := by
  refine ⟨?_, ?_, ?_⟩
  · intro body
    rw [answer_query]
    simp only [if_pos hctx, eq_self_iff_true, if_true]
  · intro status body hs
    rw [answer_query]
    simp only [if_pos hctx, if_neg hs]
  · intro msg
    rw [answer_query]
    simp only [if_pos hctx]

/-- A sample hit with chunk text "ctx" for the C6 witness. -/
def sampleHit : Hit :=
  { id := some 7, document_id := some "doc1", chunk_id := some 0,
    chunk_text := some ('c' :: 't' :: 'x' :: []), score := some 1,
    text := none }

/-- Witness for C6: a single hit and a 410 completion failure produce the
extractive-summary fallback together with the normally computed sources. -/
theorem answer_query_completion_fallbacks_witness :
    (([sampleHit] : List Hit) ≠ [] ∧
      stripChars (List.intercalate contextSep ([sampleHit].map hitText)) ≠ []) ∧
    answer_query (HFOutcome.httpError (some 410) []) [] [sampleHit] =
      Except.ok (goneFallback ([sampleHit].map hitText), [sampleHit].map mkSource) :=
  ⟨⟨by decide, by decide⟩,
    (answer_query_completion_fallbacks [] [sampleHit] (by decide) (by decide)).1 []⟩

end RAG
